import Mathlib

/-!
Verification development for the CPUsim repository: a 16-bit assembler
(`assembler.c`, which contains a simple 3-register profile and an extended
8-register profile) and the matching simulators (the extended-profile
simulator with stack/flags, and the simple-profile simulator).

The definitions below are shallow embeddings of the C functions:
machine words are `Nat` (with the C's shifts `<<<`/`>>>` and masks `&&&`,
`|||` kept as bit operations), C `int` values are unbounded `Int`
(C `int` arithmetic in this code never relies on wraparound in the claims
treated here), and the C error convention — `encode_instruction` returning
the 16-bit sentinel `0xFFFF` — is kept in-band exactly as in the source.
-/

namespace CPUsim

/-! ## Extended-profile assembler (`assembler.c`, second program)

`encode_instruction` tokenizes a line, dispatches on the mnemonic and
operand shapes, range-checks literal fields and produces one 16-bit word,
or the sentinel `0xFFFF` on any error.  `ExtInstr` represents exactly the
dispatch outcomes whose operands parsed: register operands are the codes
`0`–`7` produced by `get_register_code` (`EAX`..`ESP`), and numeric fields
are the C `int` results of `atoi` / label lookup (hence `Int`, possibly
negative, with `-1` also the `get_address_for_label` failure value).
Lines that fail to parse at all (unknown mnemonic, wrong arity, invalid
register name, memory-to-memory move) are represented separately by
`ExtLine.bad` below. -/

/-- Sentinel value `0xFFFF` used by `assemble` / `encode_instruction` to
signal an encoding error in-band. -/
def sentinel : Nat := 0xFFFF

/-- Instruction forms dispatched by the extended-profile `encode_instruction`.
One constructor per encoder branch; aliased conditional-jump mnemonics
(e.g. `JE`/`JZ`) share a branch and hence a constructor. -/
inductive ExtInstr where
  | hlt
  | ret
  | inp (r : Fin 8)
  | out (r : Fin 8)
  | inc (r : Fin 8)
  | dec (r : Fin 8)
  | push (r : Fin 8)
  | pop (r : Fin 8)
  | notR (r : Fin 8)
  | jmp (a : Int)
  | je (a : Int)
  | jne (a : Int)
  | jg (a : Int)
  | jl (a : Int)
  | jge (a : Int)
  | jle (a : Int)
  | call (a : Int)
  | addRI (r : Fin 8) (v : Int)
  | subRI (r : Fin 8) (v : Int)
  | cmpRI (r : Fin 8) (v : Int)
  | addRR (d s : Fin 8)
  | subRR (d s : Fin 8)
  | cmpRR (d s : Fin 8)
  | mulRR (d s : Fin 8)
  | divRR (d s : Fin 8)
  | xorRR (d s : Fin 8)
  | movStoreBase (src base : Fin 8) (off : Int)
  | movLoadBase (dst base : Fin 8) (off : Int)
  | movImm (r : Fin 8) (v : Int)
  | movLoad (r : Fin 8) (a : Int)
  | movStore (a : Int) (r : Fin 8)
  | movRR (d s : Fin 8)
deriving DecidableEq

/-- Shared encoding of the address-operand branch of `encode_instruction`
(all jump mnemonics and `CALL`): reject the label-lookup failure value
`-1`, range-check `0..0xFF`, else `(opcode << 11) | value`. -/
def encodeAddrOnly (op : Nat) (a : Int) : Nat :=
  if a = -1 then sentinel
  else if a < 0 ∨ 0xFF < a then sentinel
  else (op <<< 11) ||| a.toNat

/-- Shared encoding of the register+address branches of the `MOV` dispatch
(`MOV reg, [addr]` and `MOV [addr], reg`). -/
def encodeRegAddr (op : Nat) (r : Fin 8) (a : Int) : Nat :=
  if a = -1 then sentinel
  else if a < 0 ∨ 0xFF < a then sentinel
  else (op <<< 11) ||| (r.val <<< 8) ||| a.toNat

/-- Extended-profile `encode_instruction` (assembler.c):
one 16-bit word per accepted line, `0xFFFF` on range errors. -/
def encodeInstructionExt : ExtInstr → Nat
  | .hlt => 0b00000 <<< 11
  | .ret => 0b01110 <<< 11
  | .inp r => (0b00100 <<< 11) ||| (r.val <<< 8)
  | .out r => (0b00101 <<< 11) ||| (r.val <<< 8)
  | .inc r => (0b01001 <<< 11) ||| (r.val <<< 8)
  | .dec r => (0b01010 <<< 11) ||| (r.val <<< 8)
  | .push r => (0b01011 <<< 11) ||| (r.val <<< 8)
  | .pop r => (0b01100 <<< 11) ||| (r.val <<< 8)
  | .notR r => (0b10110 <<< 11) ||| (r.val <<< 8)
  | .jmp a => encodeAddrOnly 0b11000 a
  | .je a => encodeAddrOnly 0b11001 a
  | .jne a => encodeAddrOnly 0b11010 a
  | .jg a => encodeAddrOnly 0b11011 a
  | .jl a => encodeAddrOnly 0b11100 a
  | .jge a => encodeAddrOnly 0b11101 a
  | .jle a => encodeAddrOnly 0b11110 a
  | .call a => encodeAddrOnly 0b01101 a
  | .addRI r v =>
      if v < 0 ∨ 0xFF < v then sentinel
      else (0b10011 <<< 11) ||| (r.val <<< 8) ||| v.toNat
  | .subRI r v =>
      if v < 0 ∨ 0xFF < v then sentinel
      else (0b10100 <<< 11) ||| (r.val <<< 8) ||| v.toNat
  | .cmpRI r v =>
      if v < 0 ∨ 0xFF < v then sentinel
      else (0b10101 <<< 11) ||| (r.val <<< 8) ||| v.toNat
  | .addRR d s => (0b10000 <<< 11) ||| (d.val <<< 8) ||| (s.val <<< 5)
  | .subRR d s => (0b10001 <<< 11) ||| (d.val <<< 8) ||| (s.val <<< 5)
  | .cmpRR d s => (0b10111 <<< 11) ||| (d.val <<< 8) ||| (s.val <<< 5)
  | .mulRR d s => (0b00001 <<< 11) ||| (d.val <<< 8) ||| (s.val <<< 5)
  | .divRR d s => (0b00010 <<< 11) ||| (d.val <<< 8) ||| (s.val <<< 5)
  | .xorRR d s => (0b00011 <<< 11) ||| (d.val <<< 8) ||| (s.val <<< 5)
  | .movStoreBase src base off =>
      if off < 0 ∨ 0x1F < off then sentinel
      else (0b11111 <<< 11) ||| (src.val <<< 8) ||| (base.val <<< 5) ||| off.toNat
  | .movLoadBase dst base off =>
      if off < 0 ∨ 0x1F < off then sentinel
      else (0b01111 <<< 11) ||| (dst.val <<< 8) ||| (base.val <<< 5) ||| off.toNat
  | .movImm r v =>
      if v < 0 ∨ 0xFF < v then sentinel
      else (0b00110 <<< 11) ||| (r.val <<< 8) ||| v.toNat
  | .movLoad r a => encodeRegAddr 0b00111 r a
  | .movStore a r => encodeRegAddr 0b01000 r a
  | .movRR d s => (0b10010 <<< 11) ||| (d.val <<< 8) ||| (s.val <<< 5)

/-! ## Decoding (extended-profile simulator, `execute_instruction`)

The simulator extracts fields with fixed shifts and masks:
`opcode = instruction >> 11`, `reg1 = (instruction >> 8) & 0x07`,
`reg2 / reg_base = (instruction >> 5) & 0x07`, `value / addr =
instruction & 0xFF`, `offset = instruction & 0x1F`. -/

def opcodeOf (w : Nat) : Nat := w >>> 11

def reg1CodeOf (w : Nat) : Nat := (w >>> 8) &&& 0x07

def reg2CodeOf (w : Nat) : Nat := (w >>> 5) &&& 0x07

def valueOf (w : Nat) : Nat := w &&& 0xFF

def offsetOf (w : Nat) : Nat := w &&& 0x1F

/-- First register field as a register index (always in `0..7`). -/
def reg1F (w : Nat) : Fin 8 :=
  ⟨reg1CodeOf w, Nat.lt_succ_of_le Nat.and_le_right⟩

/-- Second register / base register field as a register index. -/
def reg2F (w : Nat) : Fin 8 :=
  ⟨reg2CodeOf w, Nat.lt_succ_of_le Nat.and_le_right⟩

/-- Reconstruction of the instruction form from a word, using exactly the
simulator's opcode dispatch and field masks (one arm per `switch` case of
`execute_instruction`, plus the `0b01111`/`0b11111` base+offset cases). -/
def decodeExt (w : Nat) : Option ExtInstr :=
  let r1 := reg1F w
  let r2 := reg2F w
  let v : Int := (valueOf w : Nat)
  let off : Int := (offsetOf w : Nat)
  match opcodeOf w with
  | 0b00000 => some .hlt
  | 0b00001 => some (.mulRR r1 r2)
  | 0b00010 => some (.divRR r1 r2)
  | 0b00011 => some (.xorRR r1 r2)
  | 0b00100 => some (.inp r1)
  | 0b00101 => some (.out r1)
  | 0b00110 => some (.movImm r1 v)
  | 0b00111 => some (.movLoad r1 v)
  | 0b01000 => some (.movStore v r1)
  | 0b01001 => some (.inc r1)
  | 0b01010 => some (.dec r1)
  | 0b01011 => some (.push r1)
  | 0b01100 => some (.pop r1)
  | 0b01101 => some (.call v)
  | 0b01110 => some .ret
  | 0b01111 => some (.movLoadBase r1 r2 off)
  | 0b10000 => some (.addRR r1 r2)
  | 0b10001 => some (.subRR r1 r2)
  | 0b10010 => some (.movRR r1 r2)
  | 0b10011 => some (.addRI r1 v)
  | 0b10100 => some (.subRI r1 v)
  | 0b10101 => some (.cmpRI r1 v)
  | 0b10110 => some (.notR r1)
  | 0b10111 => some (.cmpRR r1 r2)
  | 0b11000 => some (.jmp v)
  | 0b11001 => some (.je v)
  | 0b11010 => some (.jne v)
  | 0b11011 => some (.jg v)
  | 0b11100 => some (.jl v)
  | 0b11101 => some (.jge v)
  | 0b11110 => some (.jle v)
  | 0b11111 => some (.movStoreBase r1 r2 off)
  | _ => none

/-! ## Assembly driver (extended profile)

`assemble` skips lines emptied by label-stripping, encodes each remaining
line, and aborts (returns `-1`, i.e. `none` here) as soon as one encoding
yields the sentinel `0xFFFF`; only on overall success does `main` write
the binary file.  A line is either empty, a dispatch failure (unknown
mnemonic / wrong arity / invalid register name / memory-to-memory `MOV`,
all of which return `0xFFFF` before any range check), or a parsed form. -/

inductive ExtLine where
  | empty
  | bad
  | instr (i : ExtInstr)

/-- Per-line result of the extended `encode_instruction`. -/
def encodeLineExt : ExtLine → Nat
  | .empty => 0
  | .bad => sentinel
  | .instr i => encodeInstructionExt i

/-- The extended `assemble` loop: `none` models the `-1` abort. -/
def assembleExt : List ExtLine → Option (List Nat)
  | [] => some []
  | ExtLine.empty :: rest => assembleExt rest
  | l :: rest =>
      let w := encodeLineExt l
      if w = sentinel then none
      else
        match assembleExt rest with
        | none => none
        | some ws => some (w :: ws)

/-! ## Simple-profile assembler (`assembler.c`, first program)

Three registers `A B C` (codes `0 1 2`), 9-bit value/address fields
(`0..0x1FF`), register fields at shifts 9 and 7. -/

/-- Instruction forms dispatched by the simple-profile `encode_instruction`. -/
inductive SimpleInstr where
  | hlt
  | dmp
  | clrm
  | clrr
  | add (d s : Fin 3)
  | sub (d s : Fin 3)
  | mov (d s : Fin 3)
  | inp (r : Fin 3)
  | out (r : Fin 3)
  | inc (r : Fin 3)
  | dec (r : Fin 3)
  | set (r : Fin 3) (v : Int)
  | lda (r : Fin 3) (a : Int)
  | sta (r : Fin 3) (a : Int)
  | jmp (a : Int)
  | jz (r : Fin 3) (a : Int)
  | jnz (r : Fin 3) (a : Int)
  | jp (r : Fin 3) (a : Int)
  | jn (r : Fin 3) (a : Int)
deriving DecidableEq

/-- Shared register+address branch of the simple encoder (`LDA`/`STA` and
the conditional jumps): reject `-1`, range-check `0..0x1FF`. -/
def encodeRegAddrS (op : Nat) (r : Fin 3) (a : Int) : Nat :=
  if a = -1 then sentinel
  else if a < 0 ∨ 0x1FF < a then sentinel
  else (op <<< 11) ||| (r.val <<< 9) ||| a.toNat

/-- Simple-profile `encode_instruction`. -/
def encodeInstructionSimple : SimpleInstr → Nat
  | .hlt => 0b00000 <<< 11
  | .dmp => 0b00001 <<< 11
  | .clrm => 0b00010 <<< 11
  | .clrr => 0b00011 <<< 11
  | .add d s => (0b10000 <<< 11) ||| (d.val <<< 9) ||| (s.val <<< 7)
  | .sub d s => (0b10001 <<< 11) ||| (d.val <<< 9) ||| (s.val <<< 7)
  | .mov d s => (0b10010 <<< 11) ||| (d.val <<< 9) ||| (s.val <<< 7)
  | .inp r => (0b00100 <<< 11) ||| (r.val <<< 9)
  | .out r => (0b00101 <<< 11) ||| (r.val <<< 9)
  | .inc r => (0b01001 <<< 11) ||| (r.val <<< 9)
  | .dec r => (0b01010 <<< 11) ||| (r.val <<< 9)
  | .set r v =>
      if v < 0 ∨ 0x1FF < v then sentinel
      else (0b00110 <<< 11) ||| (r.val <<< 9) ||| v.toNat
  | .lda r a => encodeRegAddrS 0b00111 r a
  | .sta r a => encodeRegAddrS 0b01000 r a
  | .jmp a =>
      if a = -1 then sentinel
      else if a < 0 ∨ 0x1FF < a then sentinel
      else (0b11000 <<< 11) ||| a.toNat
  | .jz r a => encodeRegAddrS 0b11001 r a
  | .jnz r a => encodeRegAddrS 0b11010 r a
  | .jp r a => encodeRegAddrS 0b11011 r a
  | .jn r a => encodeRegAddrS 0b11100 r a

/-! ## Symbol table construction (`build_symbol_table`, both profiles)

A source line after loading (comments stripped, left-trimmed, nonempty) is
either a plain instruction line or a line with a leading `label:` marker;
`rest` is the text after the colon with leading whitespace skipped, which
replaces the line for pass 2 (so `rest = ""` is a label-only line).
`MAX_LABELS` is 64 in both profiles.  The extended version counts
instruction addresses and warns (then ignores the label) on table
overflow; the simple version records the source line index `i` as the
address, and its `fprintf` of the max-labels warning sits inside the
success branch, so it warns on every successful insertion and is silent
when the table is actually full.  The returned pair is (symbol table,
names for which the max-labels warning was printed). -/

inductive SrcLine where
  | plain (text : String)
  | labeled (name : String) (rest : String)

/-- Instruction text remaining for pass 2 after label stripping. -/
def instrTextOf : SrcLine → String
  | .plain t => t
  | .labeled _ t => t

/-- Extended-profile `build_symbol_table` loop
(`instruction_address` counter, warn-and-ignore on overflow). -/
def buildSymtabExtGo :
    List SrcLine → Nat → List (String × Nat) → List String →
      List (String × Nat) × List String
  | [], _, tab, warns => (tab, warns)
  | SrcLine.plain t :: rest, addr, tab, warns =>
      buildSymtabExtGo rest (if t = "" then addr else addr + 1) tab warns
  | SrcLine.labeled n t :: rest, addr, tab, warns =>
      if tab.length < 64 then
        buildSymtabExtGo rest (if t = "" then addr else addr + 1)
          (tab ++ [(n, addr)]) warns
      else
        buildSymtabExtGo rest (if t = "" then addr else addr + 1)
          tab (warns ++ [n])

def buildSymtabExt (lines : List SrcLine) : List (String × Nat) × List String :=
  buildSymtabExtGo lines 0 [] []

/-- Simple-profile `build_symbol_table` loop: the recorded address is the
line index `i`, and the max-labels warning is printed exactly when a label
is successfully inserted (the misplaced `fprintf`); a label found with the
table full is skipped with no output. -/
def buildSymtabSimpleGo :
    List SrcLine → Nat → List (String × Nat) → List String →
      List (String × Nat) × List String
  | [], _, tab, warns => (tab, warns)
  | SrcLine.plain _ :: rest, i, tab, warns =>
      buildSymtabSimpleGo rest (i + 1) tab warns
  | SrcLine.labeled n _ :: rest, i, tab, warns =>
      if tab.length < 64 then
        buildSymtabSimpleGo rest (i + 1) (tab ++ [(n, i)]) (warns ++ [n])
      else
        buildSymtabSimpleGo rest (i + 1) tab warns

def buildSymtabSimple (lines : List SrcLine) : List (String × Nat) × List String :=
  buildSymtabSimpleGo lines 0 [] []

/-- `get_address_for_label`: first matching entry, `-1` when absent. -/
def getAddressForLabel : List (String × Nat) → String → Int
  | [], _ => -1
  | (n, a) :: rest, name =>
      if n = name then (a : Int) else getAddressForLabel rest name

/-- Number of instruction-emitting lines (nonempty pass-2 text) among the
first `i` lines: the "instructions emitted before" counter of the spec. -/
def instructionsBefore (lines : List SrcLine) (i : Nat) : Nat :=
  ((lines.take i).filter (fun l => instrTextOf l != "")).length

/-- Modelled from the spec: the symbol table the spec describes — each
labelled line `i` maps its label to the number of instructions emitted
before line `i` (label-only lines emit nothing). -/
def symtabSpec (lines : List SrcLine) : List (String × Nat) :=
  (List.range lines.length).filterMap fun i =>
    match lines.get? i with
    | some (SrcLine.labeled n _) => some (n, instructionsBefore lines i)
    | _ => none

/-- Operational restatement of `symtabSpec` used for induction: walk the
lines carrying the instructions-emitted-so-far counter. -/
def symtabSpecFrom : List SrcLine → Nat → List (String × Nat)
  | [], _ => []
  | SrcLine.plain t :: rest, addr =>
      symtabSpecFrom rest (if t = "" then addr else addr + 1)
  | SrcLine.labeled n t :: rest, addr =>
      (n, addr) :: symtabSpecFrom rest (if t = "" then addr else addr + 1)

/-! ## Extended-profile simulator (`execute_instruction` and helpers)

Machine state: 8 registers (`EAX`..`ESP` = indices 0..7, `EBP` = 6,
`ESP` = 7), `MEMORY_SIZE = 256` words of memory, zero flag and sign flag.
`read_memory` returns 0 outside `0..255` and `write_memory` drops such
writes (both print a memory warning and execution continues).
`execute_instruction` returns the next program counter: `pc + 1`, a jump
target, or `-1` for both `HLT` and runtime faults; the outcome type below
separates those three return styles (`HLT` prints the halt banner, the
fault sites print a runtime error first). -/

structure ExtState where
  regs : Fin 8 → Int
  mem : Int → Int
  zf : Bool
  sf : Bool

inductive ExtOutcome where
  | next (pc : Int)
  | halted
  | faulted
deriving DecidableEq

/-- `set_register_value`. -/
def setReg (s : ExtState) (r : Fin 8) (v : Int) : ExtState :=
  { s with regs := fun i => if i = r then v else s.regs i }

/-- `read_memory`: zero outside `0..MEMORY_SIZE-1`. -/
def readMem (s : ExtState) (a : Int) : Int :=
  if 0 ≤ a ∧ a < 256 then s.mem a else 0

/-- `write_memory`: writes outside `0..MEMORY_SIZE-1` are dropped. -/
def writeMem (s : ExtState) (a v : Int) : ExtState :=
  if 0 ≤ a ∧ a < 256 then
    { s with mem := fun x => if x = a then v else s.mem x }
  else s

/-- Bitwise xor of two's-complement integers (C `^` on `int`). -/
def intXor : Int → Int → Int
  | Int.ofNat m, Int.ofNat n => Int.ofNat (m ^^^ n)
  | Int.ofNat m, Int.negSucc n => Int.negSucc (m ^^^ n)
  | Int.negSucc m, Int.ofNat n => Int.negSucc (m ^^^ n)
  | Int.negSucc m, Int.negSucc n => Int.ofNat (m ^^^ n)

/-- `execute_instruction` of the extended-profile simulator.  `inp` is the
integer read by a successful `scanf` for the `INP` instruction (invalid
input instead stores 0 and continues; console output has no state
effect).  C `int` division truncates toward zero (`Int.tdiv`); C `~x`
is `-x - 1`. -/
def executeInstructionExt (w : Nat) (pc : Int) (inp : Int) (s : ExtState) :
    ExtState × ExtOutcome :=
  if opcodeOf w = 0b01111 ∨ opcodeOf w = 0b11111 then
    let rds := reg1F w
    let base := reg2F w
    let off : Int := (offsetOf w : Nat)
    let ea := s.regs base + off
    if opcodeOf w = 0b01111 then
      (setReg s rds (readMem s ea), ExtOutcome.next (pc + 1))
    else
      (writeMem s ea (s.regs rds), ExtOutcome.next (pc + 1))
  else
    let reg1 := reg1F w
    let reg2 := reg2F w
    let value : Int := (valueOf w : Nat)
    let addr : Int := (valueOf w : Nat)
    match opcodeOf w with
    | 0b00000 => (s, ExtOutcome.halted)
    | 0b00001 =>
        (setReg s reg1 (s.regs reg1 * s.regs reg2), ExtOutcome.next (pc + 1))
    | 0b00010 =>
        if s.regs reg2 = 0 then (s, ExtOutcome.faulted)
        else
          (setReg s reg1 (Int.tdiv (s.regs reg1) (s.regs reg2)),
            ExtOutcome.next (pc + 1))
    | 0b00011 =>
        (setReg s reg1 (intXor (s.regs reg1) (s.regs reg2)),
          ExtOutcome.next (pc + 1))
    | 0b00100 => (setReg s reg1 inp, ExtOutcome.next (pc + 1))
    | 0b00101 => (s, ExtOutcome.next (pc + 1))
    | 0b00110 => (setReg s reg1 value, ExtOutcome.next (pc + 1))
    | 0b00111 => (setReg s reg1 (readMem s addr), ExtOutcome.next (pc + 1))
    | 0b01000 => (writeMem s addr (s.regs reg1), ExtOutcome.next (pc + 1))
    | 0b01001 => (setReg s reg1 (s.regs reg1 + 1), ExtOutcome.next (pc + 1))
    | 0b01010 => (setReg s reg1 (s.regs reg1 - 1), ExtOutcome.next (pc + 1))
    | 0b01011 =>
        let s1 := setReg s 7 (s.regs 7 - 1)
        (writeMem s1 (s1.regs 7) (s1.regs reg1), ExtOutcome.next (pc + 1))
    | 0b01100 =>
        let s1 := setReg s reg1 (readMem s (s.regs 7))
        (setReg s1 7 (s1.regs 7 + 1), ExtOutcome.next (pc + 1))
    | 0b01101 =>
        let s1 := setReg s 7 (s.regs 7 - 1)
        (writeMem s1 (s1.regs 7) (pc + 1), ExtOutcome.next addr)
    | 0b01110 =>
        let ret := readMem s (s.regs 7)
        (setReg s 7 (s.regs 7 + 1), ExtOutcome.next ret)
    | 0b10000 =>
        (setReg s reg1 (s.regs reg1 + s.regs reg2), ExtOutcome.next (pc + 1))
    | 0b10001 =>
        (setReg s reg1 (s.regs reg1 - s.regs reg2), ExtOutcome.next (pc + 1))
    | 0b10010 => (setReg s reg1 (s.regs reg2), ExtOutcome.next (pc + 1))
    | 0b10011 => (setReg s reg1 (s.regs reg1 + value), ExtOutcome.next (pc + 1))
    | 0b10100 => (setReg s reg1 (s.regs reg1 - value), ExtOutcome.next (pc + 1))
    | 0b10101 =>
        let result := s.regs reg1 - value
        ({ s with zf := decide (result = 0), sf := decide (result < 0) },
          ExtOutcome.next (pc + 1))
    | 0b10110 => (setReg s reg1 (-(s.regs reg1) - 1), ExtOutcome.next (pc + 1))
    | 0b10111 =>
        let result := s.regs reg1 - s.regs reg2
        ({ s with zf := decide (result = 0), sf := decide (result < 0) },
          ExtOutcome.next (pc + 1))
    | 0b11000 => (s, ExtOutcome.next addr)
    | 0b11001 =>
        (s, if s.zf then ExtOutcome.next addr else ExtOutcome.next (pc + 1))
    | 0b11010 =>
        (s, if s.zf then ExtOutcome.next (pc + 1) else ExtOutcome.next addr)
    | 0b11011 =>
        (s, if s.zf = false ∧ s.sf = false then ExtOutcome.next addr
            else ExtOutcome.next (pc + 1))
    | 0b11100 =>
        (s, if s.sf then ExtOutcome.next addr else ExtOutcome.next (pc + 1))
    | 0b11101 =>
        (s, if s.sf then ExtOutcome.next (pc + 1) else ExtOutcome.next addr)
    | 0b11110 =>
        (s, if s.zf = true ∨ s.sf = true then ExtOutcome.next addr
            else ExtOutcome.next (pc + 1))
    | _ => (s, ExtOutcome.faulted)

/-- Iterated `PUSH` (same push word each step, pc/input irrelevant to its
state effect): used to express unbounded stack-pointer descent. -/
def pushIter (w : Nat) : Nat → ExtState → ExtState
  | 0, s => s
  | n + 1, s => pushIter w n (executeInstructionExt w 0 0 s).1

/-! ## Concrete states and programs used by witnesses and counterexamples -/

/-- All-zero machine state. -/
def st0 : ExtState := ⟨fun _ => 0, fun _ => 0, false, false⟩

/-- State with `EAX = 5`, all other registers (including `ESP`) 0 —
a machine whose stack pointer already sits at the bottom of memory. -/
def stEspZero : ExtState :=
  ⟨fun i => if i = 0 then 5 else 0, fun _ => 0, false, false⟩

/-- State with `ESP = 10`, other registers 0. -/
def stEsp10 : ExtState :=
  ⟨fun i => if i = 7 then 10 else 0, fun _ => 0, false, false⟩

/-- State for the CMP witness: `EAX = 3`, `EBX = 8`. -/
def stCmp : ExtState :=
  ⟨fun i => if i = 0 then 3 else if i = 1 then 8 else 0, fun _ => 0, false, false⟩

/-- Two-line program: a label-only line, then a labelled instruction. -/
def demoProg : List SrcLine :=
  [SrcLine.labeled "L" "", SrcLine.labeled "M" "OUT EAX"]

/-- Sixty-five labelled instruction lines (labels may repeat; neither
`build_symbol_table` deduplicates). -/
def prog65 : List SrcLine := List.replicate 65 (SrcLine.labeled "L" "HLT")


/-! ## Bit-level groundwork: the fixed shifts and masks in arithmetic form -/

theorem lor_disjoint (a b k : Nat) (hb : b < 2 ^ k) :
    (a * 2 ^ k) ||| b = a * 2 ^ k + b := by
  apply Nat.eq_of_testBit_eq
  intro i
  rw [Nat.testBit_lor, Nat.mul_comm a (2 ^ k), Nat.testBit_mul_pow_two_add a hb,
    Nat.testBit_mul_pow_two]
  by_cases h : i < k
  · simp [h, Nat.not_le_of_lt h]
  · have hk : k ≤ i := Nat.le_of_not_lt h
    have hb2 : b < 2 ^ i := Nat.lt_of_lt_of_le hb (Nat.pow_le_pow_right (by omega) hk)
    simp [h, hk, Nat.testBit_lt_two_pow hb2]

theorem lor2048 (a b : Nat) (hb : b < 2048) : (a * 2048) ||| b = a * 2048 + b := by
  have h := lor_disjoint a b 11 (by norm_num [hb])
  norm_num at h
  exact h

theorem lor256 (a b : Nat) (hb : b < 256) : (a * 256) ||| b = a * 256 + b := by
  have h := lor_disjoint a b 8 (by norm_num [hb])
  norm_num at h
  exact h

theorem lor32 (a b : Nat) (hb : b < 32) : (a * 32) ||| b = a * 32 + b := by
  have h := lor_disjoint a b 5 (by norm_num [hb])
  norm_num at h
  exact h

theorem enc2_eq (op r : Nat) (hr : r < 8) :
    (op <<< 11) ||| (r <<< 8) = op * 2048 + r * 256 := by
  rw [Nat.shiftLeft_eq, Nat.shiftLeft_eq,
    show (2 : Nat) ^ 11 = 2048 by norm_num, show (2 : Nat) ^ 8 = 256 by norm_num,
    lor2048 _ _ (by omega)]

theorem enc3_eq (op r v : Nat) (hr : r < 8) (hv : v < 256) :
    (op <<< 11) ||| (r <<< 8) ||| v = op * 2048 + r * 256 + v := by
  rw [enc2_eq op r hr,
    show op * 2048 + r * 256 = (op * 8 + r) * 256 by ring, lor256 _ _ hv]

theorem encRR_eq (op d s : Nat) (hd : d < 8) (hs : s < 8) :
    (op <<< 11) ||| (d <<< 8) ||| (s <<< 5) = op * 2048 + d * 256 + s * 32 := by
  rw [enc2_eq op d hd, Nat.shiftLeft_eq, show (2 : Nat) ^ 5 = 32 by norm_num,
    show op * 2048 + d * 256 = (op * 8 + d) * 256 by ring, lor256 _ _ (by omega)]

theorem enc4_eq (op r b off : Nat) (hr : r < 8) (hb : b < 8) (hoff : off < 32) :
    (op <<< 11) ||| (r <<< 8) ||| (b <<< 5) ||| off
      = op * 2048 + r * 256 + b * 32 + off := by
  rw [enc2_eq op r hr, Nat.shiftLeft_eq, show (2 : Nat) ^ 5 = 32 by norm_num,
    show op * 2048 + r * 256 = (op * 8 + r) * 256 by ring, lor256 _ _ (by omega),
    show (op * 8 + r) * 256 + b * 32 = (op * 64 + r * 8 + b) * 32 by ring,
    lor32 _ _ hoff]

theorem encA_eq (op v : Nat) (hv : v < 2048) :
    (op <<< 11) ||| v = op * 2048 + v := by
  rw [Nat.shiftLeft_eq, show (2 : Nat) ^ 11 = 2048 by norm_num, lor2048 op v hv]

theorem opcodeOf_div (w : Nat) : opcodeOf w = w / 2048 := by
  unfold opcodeOf
  rw [Nat.shiftRight_eq_div_pow, show (2 : Nat) ^ 11 = 2048 by norm_num]

theorem reg1CodeOf_mod (w : Nat) : reg1CodeOf w = w / 256 % 8 := by
  unfold reg1CodeOf
  rw [Nat.shiftRight_eq_div_pow, show (0x07 : Nat) = 2 ^ 3 - 1 by norm_num,
    Nat.and_pow_two_sub_one_eq_mod, show (2 : Nat) ^ 8 = 256 by norm_num,
    show (2 : Nat) ^ 3 = 8 by norm_num]

theorem reg2CodeOf_mod (w : Nat) : reg2CodeOf w = w / 32 % 8 := by
  unfold reg2CodeOf
  rw [Nat.shiftRight_eq_div_pow, show (0x07 : Nat) = 2 ^ 3 - 1 by norm_num,
    Nat.and_pow_two_sub_one_eq_mod, show (2 : Nat) ^ 5 = 32 by norm_num,
    show (2 : Nat) ^ 3 = 8 by norm_num]

theorem valueOf_mod (w : Nat) : valueOf w = w % 256 := by
  unfold valueOf
  rw [show (0xFF : Nat) = 2 ^ 8 - 1 by norm_num, Nat.and_pow_two_sub_one_eq_mod,
    show (2 : Nat) ^ 8 = 256 by norm_num]

theorem offsetOf_mod (w : Nat) : offsetOf w = w % 32 := by
  unfold offsetOf
  rw [show (0x1F : Nat) = 2 ^ 5 - 1 by norm_num, Nat.and_pow_two_sub_one_eq_mod,
    show (2 : Nat) ^ 5 = 32 by norm_num]

/-- C1: for every instruction line accepted by the extended-profile
assembler (its encoding is not the error sentinel, so a word is emitted),
decoding the 16-bit word with the simulator's fixed shifts and masks
recovers the original opcode and every operand field exactly. -/
theorem extended_encode_decode_roundtrip (i : ExtInstr)
    (h : encodeInstructionExt i ≠ sentinel) :
    decodeExt (encodeInstructionExt i) = some i := by
  cases i with
  | hlt => decide
  | ret => decide
  | inp r =>
      have hr := r.isLt
      have he : encodeInstructionExt (.inp r) = 0b00100 * 2048 + r.val * 256 := by
        rw [show encodeInstructionExt (.inp r)
            = (0b00100 <<< 11) ||| (r.val <<< 8) from rfl, enc2_eq _ _ hr]
      rw [he]
      have hop : opcodeOf (0b00100 * 2048 + r.val * 256) = 0b00100 := by
        rw [opcodeOf_div]; omega
      have hr1 : reg1F (0b00100 * 2048 + r.val * 256) = r := by
        apply Fin.ext
        show reg1CodeOf _ = r.val
        rw [reg1CodeOf_mod]; omega
      simp only [decodeExt, hop, hr1]
  | out r =>
      have hr := r.isLt
      have he : encodeInstructionExt (.out r) = 0b00101 * 2048 + r.val * 256 := by
        rw [show encodeInstructionExt (.out r)
            = (0b00101 <<< 11) ||| (r.val <<< 8) from rfl, enc2_eq _ _ hr]
      rw [he]
      have hop : opcodeOf (0b00101 * 2048 + r.val * 256) = 0b00101 := by
        rw [opcodeOf_div]; omega
      have hr1 : reg1F (0b00101 * 2048 + r.val * 256) = r := by
        apply Fin.ext
        show reg1CodeOf _ = r.val
        rw [reg1CodeOf_mod]; omega
      simp only [decodeExt, hop, hr1]
  | inc r =>
      have hr := r.isLt
      have he : encodeInstructionExt (.inc r) = 0b01001 * 2048 + r.val * 256 := by
        rw [show encodeInstructionExt (.inc r)
            = (0b01001 <<< 11) ||| (r.val <<< 8) from rfl, enc2_eq _ _ hr]
      rw [he]
      have hop : opcodeOf (0b01001 * 2048 + r.val * 256) = 0b01001 := by
        rw [opcodeOf_div]; omega
      have hr1 : reg1F (0b01001 * 2048 + r.val * 256) = r := by
        apply Fin.ext
        show reg1CodeOf _ = r.val
        rw [reg1CodeOf_mod]; omega
      simp only [decodeExt, hop, hr1]
  | dec r =>
      have hr := r.isLt
      have he : encodeInstructionExt (.dec r) = 0b01010 * 2048 + r.val * 256 := by
        rw [show encodeInstructionExt (.dec r)
            = (0b01010 <<< 11) ||| (r.val <<< 8) from rfl, enc2_eq _ _ hr]
      rw [he]
      have hop : opcodeOf (0b01010 * 2048 + r.val * 256) = 0b01010 := by
        rw [opcodeOf_div]; omega
      have hr1 : reg1F (0b01010 * 2048 + r.val * 256) = r := by
        apply Fin.ext
        show reg1CodeOf _ = r.val
        rw [reg1CodeOf_mod]; omega
      simp only [decodeExt, hop, hr1]
  | push r =>
      have hr := r.isLt
      have he : encodeInstructionExt (.push r) = 0b01011 * 2048 + r.val * 256 := by
        rw [show encodeInstructionExt (.push r)
            = (0b01011 <<< 11) ||| (r.val <<< 8) from rfl, enc2_eq _ _ hr]
      rw [he]
      have hop : opcodeOf (0b01011 * 2048 + r.val * 256) = 0b01011 := by
        rw [opcodeOf_div]; omega
      have hr1 : reg1F (0b01011 * 2048 + r.val * 256) = r := by
        apply Fin.ext
        show reg1CodeOf _ = r.val
        rw [reg1CodeOf_mod]; omega
      simp only [decodeExt, hop, hr1]
  | pop r =>
      have hr := r.isLt
      have he : encodeInstructionExt (.pop r) = 0b01100 * 2048 + r.val * 256 := by
        rw [show encodeInstructionExt (.pop r)
            = (0b01100 <<< 11) ||| (r.val <<< 8) from rfl, enc2_eq _ _ hr]
      rw [he]
      have hop : opcodeOf (0b01100 * 2048 + r.val * 256) = 0b01100 := by
        rw [opcodeOf_div]; omega
      have hr1 : reg1F (0b01100 * 2048 + r.val * 256) = r := by
        apply Fin.ext
        show reg1CodeOf _ = r.val
        rw [reg1CodeOf_mod]; omega
      simp only [decodeExt, hop, hr1]
  | notR r =>
      have hr := r.isLt
      have he : encodeInstructionExt (.notR r) = 0b10110 * 2048 + r.val * 256 := by
        rw [show encodeInstructionExt (.notR r)
            = (0b10110 <<< 11) ||| (r.val <<< 8) from rfl, enc2_eq _ _ hr]
      rw [he]
      have hop : opcodeOf (0b10110 * 2048 + r.val * 256) = 0b10110 := by
        rw [opcodeOf_div]; omega
      have hr1 : reg1F (0b10110 * 2048 + r.val * 256) = r := by
        apply Fin.ext
        show reg1CodeOf _ = r.val
        rw [reg1CodeOf_mod]; omega
      simp only [decodeExt, hop, hr1]
  | jmp a =>
      have hu : encodeInstructionExt (.jmp a) = encodeAddrOnly 0b11000 a := rfl
      by_cases h1 : a = -1
      · exfalso
        apply h
        rw [hu]
        unfold encodeAddrOnly
        rw [if_pos h1]
      · by_cases h2 : a < 0 ∨ (0xFF : Int) < a
        · exfalso
          apply h
          rw [hu]
          unfold encodeAddrOnly
          rw [if_neg h1, if_pos h2]
        · push_neg at h2
          have hv2 : a.toNat < 256 := by omega
          have he : encodeInstructionExt (.jmp a) = 0b11000 * 2048 + a.toNat := by
            rw [hu]
            unfold encodeAddrOnly
            rw [if_neg h1, if_neg (by push_neg; exact h2), encA_eq _ _ (by omega)]
          rw [he]
          have hop : opcodeOf (0b11000 * 2048 + a.toNat) = 0b11000 := by
            rw [opcodeOf_div]; omega
          have hval : ((valueOf (0b11000 * 2048 + a.toNat) : Nat) : Int) = a := by
            rw [valueOf_mod, show (0b11000 * 2048 + a.toNat) % 256 = a.toNat by omega]
            omega
          simp only [decodeExt, hop, hval]
  | je a =>
      have hu : encodeInstructionExt (.je a) = encodeAddrOnly 0b11001 a := rfl
      by_cases h1 : a = -1
      · exfalso
        apply h
        rw [hu]
        unfold encodeAddrOnly
        rw [if_pos h1]
      · by_cases h2 : a < 0 ∨ (0xFF : Int) < a
        · exfalso
          apply h
          rw [hu]
          unfold encodeAddrOnly
          rw [if_neg h1, if_pos h2]
        · push_neg at h2
          have hv2 : a.toNat < 256 := by omega
          have he : encodeInstructionExt (.je a) = 0b11001 * 2048 + a.toNat := by
            rw [hu]
            unfold encodeAddrOnly
            rw [if_neg h1, if_neg (by push_neg; exact h2), encA_eq _ _ (by omega)]
          rw [he]
          have hop : opcodeOf (0b11001 * 2048 + a.toNat) = 0b11001 := by
            rw [opcodeOf_div]; omega
          have hval : ((valueOf (0b11001 * 2048 + a.toNat) : Nat) : Int) = a := by
            rw [valueOf_mod, show (0b11001 * 2048 + a.toNat) % 256 = a.toNat by omega]
            omega
          simp only [decodeExt, hop, hval]
  | jne a =>
      have hu : encodeInstructionExt (.jne a) = encodeAddrOnly 0b11010 a := rfl
      by_cases h1 : a = -1
      · exfalso
        apply h
        rw [hu]
        unfold encodeAddrOnly
        rw [if_pos h1]
      · by_cases h2 : a < 0 ∨ (0xFF : Int) < a
        · exfalso
          apply h
          rw [hu]
          unfold encodeAddrOnly
          rw [if_neg h1, if_pos h2]
        · push_neg at h2
          have hv2 : a.toNat < 256 := by omega
          have he : encodeInstructionExt (.jne a) = 0b11010 * 2048 + a.toNat := by
            rw [hu]
            unfold encodeAddrOnly
            rw [if_neg h1, if_neg (by push_neg; exact h2), encA_eq _ _ (by omega)]
          rw [he]
          have hop : opcodeOf (0b11010 * 2048 + a.toNat) = 0b11010 := by
            rw [opcodeOf_div]; omega
          have hval : ((valueOf (0b11010 * 2048 + a.toNat) : Nat) : Int) = a := by
            rw [valueOf_mod, show (0b11010 * 2048 + a.toNat) % 256 = a.toNat by omega]
            omega
          simp only [decodeExt, hop, hval]
  | jg a =>
      have hu : encodeInstructionExt (.jg a) = encodeAddrOnly 0b11011 a := rfl
      by_cases h1 : a = -1
      · exfalso
        apply h
        rw [hu]
        unfold encodeAddrOnly
        rw [if_pos h1]
      · by_cases h2 : a < 0 ∨ (0xFF : Int) < a
        · exfalso
          apply h
          rw [hu]
          unfold encodeAddrOnly
          rw [if_neg h1, if_pos h2]
        · push_neg at h2
          have hv2 : a.toNat < 256 := by omega
          have he : encodeInstructionExt (.jg a) = 0b11011 * 2048 + a.toNat := by
            rw [hu]
            unfold encodeAddrOnly
            rw [if_neg h1, if_neg (by push_neg; exact h2), encA_eq _ _ (by omega)]
          rw [he]
          have hop : opcodeOf (0b11011 * 2048 + a.toNat) = 0b11011 := by
            rw [opcodeOf_div]; omega
          have hval : ((valueOf (0b11011 * 2048 + a.toNat) : Nat) : Int) = a := by
            rw [valueOf_mod, show (0b11011 * 2048 + a.toNat) % 256 = a.toNat by omega]
            omega
          simp only [decodeExt, hop, hval]
  | jl a =>
      have hu : encodeInstructionExt (.jl a) = encodeAddrOnly 0b11100 a := rfl
      by_cases h1 : a = -1
      · exfalso
        apply h
        rw [hu]
        unfold encodeAddrOnly
        rw [if_pos h1]
      · by_cases h2 : a < 0 ∨ (0xFF : Int) < a
        · exfalso
          apply h
          rw [hu]
          unfold encodeAddrOnly
          rw [if_neg h1, if_pos h2]
        · push_neg at h2
          have hv2 : a.toNat < 256 := by omega
          have he : encodeInstructionExt (.jl a) = 0b11100 * 2048 + a.toNat := by
            rw [hu]
            unfold encodeAddrOnly
            rw [if_neg h1, if_neg (by push_neg; exact h2), encA_eq _ _ (by omega)]
          rw [he]
          have hop : opcodeOf (0b11100 * 2048 + a.toNat) = 0b11100 := by
            rw [opcodeOf_div]; omega
          have hval : ((valueOf (0b11100 * 2048 + a.toNat) : Nat) : Int) = a := by
            rw [valueOf_mod, show (0b11100 * 2048 + a.toNat) % 256 = a.toNat by omega]
            omega
          simp only [decodeExt, hop, hval]
  | jge a =>
      have hu : encodeInstructionExt (.jge a) = encodeAddrOnly 0b11101 a := rfl
      by_cases h1 : a = -1
      · exfalso
        apply h
        rw [hu]
        unfold encodeAddrOnly
        rw [if_pos h1]
      · by_cases h2 : a < 0 ∨ (0xFF : Int) < a
        · exfalso
          apply h
          rw [hu]
          unfold encodeAddrOnly
          rw [if_neg h1, if_pos h2]
        · push_neg at h2
          have hv2 : a.toNat < 256 := by omega
          have he : encodeInstructionExt (.jge a) = 0b11101 * 2048 + a.toNat := by
            rw [hu]
            unfold encodeAddrOnly
            rw [if_neg h1, if_neg (by push_neg; exact h2), encA_eq _ _ (by omega)]
          rw [he]
          have hop : opcodeOf (0b11101 * 2048 + a.toNat) = 0b11101 := by
            rw [opcodeOf_div]; omega
          have hval : ((valueOf (0b11101 * 2048 + a.toNat) : Nat) : Int) = a := by
            rw [valueOf_mod, show (0b11101 * 2048 + a.toNat) % 256 = a.toNat by omega]
            omega
          simp only [decodeExt, hop, hval]
  | jle a =>
      have hu : encodeInstructionExt (.jle a) = encodeAddrOnly 0b11110 a := rfl
      by_cases h1 : a = -1
      · exfalso
        apply h
        rw [hu]
        unfold encodeAddrOnly
        rw [if_pos h1]
      · by_cases h2 : a < 0 ∨ (0xFF : Int) < a
        · exfalso
          apply h
          rw [hu]
          unfold encodeAddrOnly
          rw [if_neg h1, if_pos h2]
        · push_neg at h2
          have hv2 : a.toNat < 256 := by omega
          have he : encodeInstructionExt (.jle a) = 0b11110 * 2048 + a.toNat := by
            rw [hu]
            unfold encodeAddrOnly
            rw [if_neg h1, if_neg (by push_neg; exact h2), encA_eq _ _ (by omega)]
          rw [he]
          have hop : opcodeOf (0b11110 * 2048 + a.toNat) = 0b11110 := by
            rw [opcodeOf_div]; omega
          have hval : ((valueOf (0b11110 * 2048 + a.toNat) : Nat) : Int) = a := by
            rw [valueOf_mod, show (0b11110 * 2048 + a.toNat) % 256 = a.toNat by omega]
            omega
          simp only [decodeExt, hop, hval]
  | call a =>
      have hu : encodeInstructionExt (.call a) = encodeAddrOnly 0b01101 a := rfl
      by_cases h1 : a = -1
      · exfalso
        apply h
        rw [hu]
        unfold encodeAddrOnly
        rw [if_pos h1]
      · by_cases h2 : a < 0 ∨ (0xFF : Int) < a
        · exfalso
          apply h
          rw [hu]
          unfold encodeAddrOnly
          rw [if_neg h1, if_pos h2]
        · push_neg at h2
          have hv2 : a.toNat < 256 := by omega
          have he : encodeInstructionExt (.call a) = 0b01101 * 2048 + a.toNat := by
            rw [hu]
            unfold encodeAddrOnly
            rw [if_neg h1, if_neg (by push_neg; exact h2), encA_eq _ _ (by omega)]
          rw [he]
          have hop : opcodeOf (0b01101 * 2048 + a.toNat) = 0b01101 := by
            rw [opcodeOf_div]; omega
          have hval : ((valueOf (0b01101 * 2048 + a.toNat) : Nat) : Int) = a := by
            rw [valueOf_mod, show (0b01101 * 2048 + a.toNat) % 256 = a.toNat by omega]
            omega
          simp only [decodeExt, hop, hval]
  | addRI r v =>
      have hr := r.isLt
      have hu : encodeInstructionExt (.addRI r v)
          = (if v < 0 ∨ (0xFF : Int) < v then sentinel
             else (0b10011 <<< 11) ||| (r.val <<< 8) ||| v.toNat) := rfl
      by_cases hv : v < 0 ∨ (0xFF : Int) < v
      · exfalso
        apply h
        rw [hu, if_pos hv]
      · push_neg at hv
        have hv2 : v.toNat < 256 := by omega
        have he : encodeInstructionExt (.addRI r v) = 0b10011 * 2048 + r.val * 256 + v.toNat := by
          rw [hu, if_neg (by push_neg; exact hv), enc3_eq _ _ _ hr hv2]
        rw [he]
        have hop : opcodeOf (0b10011 * 2048 + r.val * 256 + v.toNat) = 0b10011 := by
          rw [opcodeOf_div]; omega
        have hr1 : reg1F (0b10011 * 2048 + r.val * 256 + v.toNat) = r := by
          apply Fin.ext
          show reg1CodeOf _ = r.val
          rw [reg1CodeOf_mod]; omega
        have hval : ((valueOf (0b10011 * 2048 + r.val * 256 + v.toNat) : Nat) : Int) = v := by
          rw [valueOf_mod, show (0b10011 * 2048 + r.val * 256 + v.toNat) % 256 = v.toNat by omega]
          omega
        simp only [decodeExt, hop, hr1, hval]
  | subRI r v =>
      have hr := r.isLt
      have hu : encodeInstructionExt (.subRI r v)
          = (if v < 0 ∨ (0xFF : Int) < v then sentinel
             else (0b10100 <<< 11) ||| (r.val <<< 8) ||| v.toNat) := rfl
      by_cases hv : v < 0 ∨ (0xFF : Int) < v
      · exfalso
        apply h
        rw [hu, if_pos hv]
      · push_neg at hv
        have hv2 : v.toNat < 256 := by omega
        have he : encodeInstructionExt (.subRI r v) = 0b10100 * 2048 + r.val * 256 + v.toNat := by
          rw [hu, if_neg (by push_neg; exact hv), enc3_eq _ _ _ hr hv2]
        rw [he]
        have hop : opcodeOf (0b10100 * 2048 + r.val * 256 + v.toNat) = 0b10100 := by
          rw [opcodeOf_div]; omega
        have hr1 : reg1F (0b10100 * 2048 + r.val * 256 + v.toNat) = r := by
          apply Fin.ext
          show reg1CodeOf _ = r.val
          rw [reg1CodeOf_mod]; omega
        have hval : ((valueOf (0b10100 * 2048 + r.val * 256 + v.toNat) : Nat) : Int) = v := by
          rw [valueOf_mod, show (0b10100 * 2048 + r.val * 256 + v.toNat) % 256 = v.toNat by omega]
          omega
        simp only [decodeExt, hop, hr1, hval]
  | cmpRI r v =>
      have hr := r.isLt
      have hu : encodeInstructionExt (.cmpRI r v)
          = (if v < 0 ∨ (0xFF : Int) < v then sentinel
             else (0b10101 <<< 11) ||| (r.val <<< 8) ||| v.toNat) := rfl
      by_cases hv : v < 0 ∨ (0xFF : Int) < v
      · exfalso
        apply h
        rw [hu, if_pos hv]
      · push_neg at hv
        have hv2 : v.toNat < 256 := by omega
        have he : encodeInstructionExt (.cmpRI r v) = 0b10101 * 2048 + r.val * 256 + v.toNat := by
          rw [hu, if_neg (by push_neg; exact hv), enc3_eq _ _ _ hr hv2]
        rw [he]
        have hop : opcodeOf (0b10101 * 2048 + r.val * 256 + v.toNat) = 0b10101 := by
          rw [opcodeOf_div]; omega
        have hr1 : reg1F (0b10101 * 2048 + r.val * 256 + v.toNat) = r := by
          apply Fin.ext
          show reg1CodeOf _ = r.val
          rw [reg1CodeOf_mod]; omega
        have hval : ((valueOf (0b10101 * 2048 + r.val * 256 + v.toNat) : Nat) : Int) = v := by
          rw [valueOf_mod, show (0b10101 * 2048 + r.val * 256 + v.toNat) % 256 = v.toNat by omega]
          omega
        simp only [decodeExt, hop, hr1, hval]
  | addRR d s =>
      have hd := d.isLt
      have hs := s.isLt
      have he : encodeInstructionExt (.addRR d s) = 0b10000 * 2048 + d.val * 256 + s.val * 32 := by
        rw [show encodeInstructionExt (.addRR d s)
            = (0b10000 <<< 11) ||| (d.val <<< 8) ||| (s.val <<< 5) from rfl,
          encRR_eq _ _ _ hd hs]
      rw [he]
      have hop : opcodeOf (0b10000 * 2048 + d.val * 256 + s.val * 32) = 0b10000 := by
        rw [opcodeOf_div]; omega
      have hr1 : reg1F (0b10000 * 2048 + d.val * 256 + s.val * 32) = d := by
        apply Fin.ext
        show reg1CodeOf _ = d.val
        rw [reg1CodeOf_mod]; omega
      have hr2 : reg2F (0b10000 * 2048 + d.val * 256 + s.val * 32) = s := by
        apply Fin.ext
        show reg2CodeOf _ = s.val
        rw [reg2CodeOf_mod]; omega
      simp only [decodeExt, hop, hr1, hr2]
  | subRR d s =>
      have hd := d.isLt
      have hs := s.isLt
      have he : encodeInstructionExt (.subRR d s) = 0b10001 * 2048 + d.val * 256 + s.val * 32 := by
        rw [show encodeInstructionExt (.subRR d s)
            = (0b10001 <<< 11) ||| (d.val <<< 8) ||| (s.val <<< 5) from rfl,
          encRR_eq _ _ _ hd hs]
      rw [he]
      have hop : opcodeOf (0b10001 * 2048 + d.val * 256 + s.val * 32) = 0b10001 := by
        rw [opcodeOf_div]; omega
      have hr1 : reg1F (0b10001 * 2048 + d.val * 256 + s.val * 32) = d := by
        apply Fin.ext
        show reg1CodeOf _ = d.val
        rw [reg1CodeOf_mod]; omega
      have hr2 : reg2F (0b10001 * 2048 + d.val * 256 + s.val * 32) = s := by
        apply Fin.ext
        show reg2CodeOf _ = s.val
        rw [reg2CodeOf_mod]; omega
      simp only [decodeExt, hop, hr1, hr2]
  | cmpRR d s =>
      have hd := d.isLt
      have hs := s.isLt
      have he : encodeInstructionExt (.cmpRR d s) = 0b10111 * 2048 + d.val * 256 + s.val * 32 := by
        rw [show encodeInstructionExt (.cmpRR d s)
            = (0b10111 <<< 11) ||| (d.val <<< 8) ||| (s.val <<< 5) from rfl,
          encRR_eq _ _ _ hd hs]
      rw [he]
      have hop : opcodeOf (0b10111 * 2048 + d.val * 256 + s.val * 32) = 0b10111 := by
        rw [opcodeOf_div]; omega
      have hr1 : reg1F (0b10111 * 2048 + d.val * 256 + s.val * 32) = d := by
        apply Fin.ext
        show reg1CodeOf _ = d.val
        rw [reg1CodeOf_mod]; omega
      have hr2 : reg2F (0b10111 * 2048 + d.val * 256 + s.val * 32) = s := by
        apply Fin.ext
        show reg2CodeOf _ = s.val
        rw [reg2CodeOf_mod]; omega
      simp only [decodeExt, hop, hr1, hr2]
  | mulRR d s =>
      have hd := d.isLt
      have hs := s.isLt
      have he : encodeInstructionExt (.mulRR d s) = 0b00001 * 2048 + d.val * 256 + s.val * 32 := by
        rw [show encodeInstructionExt (.mulRR d s)
            = (0b00001 <<< 11) ||| (d.val <<< 8) ||| (s.val <<< 5) from rfl,
          encRR_eq _ _ _ hd hs]
      rw [he]
      have hop : opcodeOf (0b00001 * 2048 + d.val * 256 + s.val * 32) = 0b00001 := by
        rw [opcodeOf_div]; omega
      have hr1 : reg1F (0b00001 * 2048 + d.val * 256 + s.val * 32) = d := by
        apply Fin.ext
        show reg1CodeOf _ = d.val
        rw [reg1CodeOf_mod]; omega
      have hr2 : reg2F (0b00001 * 2048 + d.val * 256 + s.val * 32) = s := by
        apply Fin.ext
        show reg2CodeOf _ = s.val
        rw [reg2CodeOf_mod]; omega
      simp only [decodeExt, hop, hr1, hr2]
  | divRR d s =>
      have hd := d.isLt
      have hs := s.isLt
      have he : encodeInstructionExt (.divRR d s) = 0b00010 * 2048 + d.val * 256 + s.val * 32 := by
        rw [show encodeInstructionExt (.divRR d s)
            = (0b00010 <<< 11) ||| (d.val <<< 8) ||| (s.val <<< 5) from rfl,
          encRR_eq _ _ _ hd hs]
      rw [he]
      have hop : opcodeOf (0b00010 * 2048 + d.val * 256 + s.val * 32) = 0b00010 := by
        rw [opcodeOf_div]; omega
      have hr1 : reg1F (0b00010 * 2048 + d.val * 256 + s.val * 32) = d := by
        apply Fin.ext
        show reg1CodeOf _ = d.val
        rw [reg1CodeOf_mod]; omega
      have hr2 : reg2F (0b00010 * 2048 + d.val * 256 + s.val * 32) = s := by
        apply Fin.ext
        show reg2CodeOf _ = s.val
        rw [reg2CodeOf_mod]; omega
      simp only [decodeExt, hop, hr1, hr2]
  | xorRR d s =>
      have hd := d.isLt
      have hs := s.isLt
      have he : encodeInstructionExt (.xorRR d s) = 0b00011 * 2048 + d.val * 256 + s.val * 32 := by
        rw [show encodeInstructionExt (.xorRR d s)
            = (0b00011 <<< 11) ||| (d.val <<< 8) ||| (s.val <<< 5) from rfl,
          encRR_eq _ _ _ hd hs]
      rw [he]
      have hop : opcodeOf (0b00011 * 2048 + d.val * 256 + s.val * 32) = 0b00011 := by
        rw [opcodeOf_div]; omega
      have hr1 : reg1F (0b00011 * 2048 + d.val * 256 + s.val * 32) = d := by
        apply Fin.ext
        show reg1CodeOf _ = d.val
        rw [reg1CodeOf_mod]; omega
      have hr2 : reg2F (0b00011 * 2048 + d.val * 256 + s.val * 32) = s := by
        apply Fin.ext
        show reg2CodeOf _ = s.val
        rw [reg2CodeOf_mod]; omega
      simp only [decodeExt, hop, hr1, hr2]
  | movStoreBase src base off =>
      have ha1 := src.isLt
      have ha2 := base.isLt
      have hu : encodeInstructionExt (.movStoreBase src base off)
          = (if off < 0 ∨ (0x1F : Int) < off then sentinel
             else (0b11111 <<< 11) ||| (src.val <<< 8) ||| (base.val <<< 5) ||| off.toNat)
          := rfl
      by_cases hv : off < 0 ∨ (0x1F : Int) < off
      · exfalso
        apply h
        rw [hu, if_pos hv]
      · push_neg at hv
        have hv2 : off.toNat < 32 := by omega
        have he : encodeInstructionExt (.movStoreBase src base off) = 0b11111 * 2048 + src.val * 256 + base.val * 32 + off.toNat := by
          rw [hu, if_neg (by push_neg; exact hv), enc4_eq _ _ _ _ ha1 ha2 hv2]
        rw [he]
        have hop : opcodeOf (0b11111 * 2048 + src.val * 256 + base.val * 32 + off.toNat) = 0b11111 := by
          rw [opcodeOf_div]; omega
        have hr1 : reg1F (0b11111 * 2048 + src.val * 256 + base.val * 32 + off.toNat) = src := by
          apply Fin.ext
          show reg1CodeOf _ = src.val
          rw [reg1CodeOf_mod]; omega
        have hr2 : reg2F (0b11111 * 2048 + src.val * 256 + base.val * 32 + off.toNat) = base := by
          apply Fin.ext
          show reg2CodeOf _ = base.val
          rw [reg2CodeOf_mod]; omega
        have hoff : ((offsetOf (0b11111 * 2048 + src.val * 256 + base.val * 32 + off.toNat) : Nat) : Int) = off := by
          rw [offsetOf_mod, show (0b11111 * 2048 + src.val * 256 + base.val * 32 + off.toNat) % 32 = off.toNat by omega]
          omega
        simp only [decodeExt, hop, hr1, hr2, hoff]
  | movLoadBase dst base off =>
      have ha1 := dst.isLt
      have ha2 := base.isLt
      have hu : encodeInstructionExt (.movLoadBase dst base off)
          = (if off < 0 ∨ (0x1F : Int) < off then sentinel
             else (0b01111 <<< 11) ||| (dst.val <<< 8) ||| (base.val <<< 5) ||| off.toNat)
          := rfl
      by_cases hv : off < 0 ∨ (0x1F : Int) < off
      · exfalso
        apply h
        rw [hu, if_pos hv]
      · push_neg at hv
        have hv2 : off.toNat < 32 := by omega
        have he : encodeInstructionExt (.movLoadBase dst base off) = 0b01111 * 2048 + dst.val * 256 + base.val * 32 + off.toNat := by
          rw [hu, if_neg (by push_neg; exact hv), enc4_eq _ _ _ _ ha1 ha2 hv2]
        rw [he]
        have hop : opcodeOf (0b01111 * 2048 + dst.val * 256 + base.val * 32 + off.toNat) = 0b01111 := by
          rw [opcodeOf_div]; omega
        have hr1 : reg1F (0b01111 * 2048 + dst.val * 256 + base.val * 32 + off.toNat) = dst := by
          apply Fin.ext
          show reg1CodeOf _ = dst.val
          rw [reg1CodeOf_mod]; omega
        have hr2 : reg2F (0b01111 * 2048 + dst.val * 256 + base.val * 32 + off.toNat) = base := by
          apply Fin.ext
          show reg2CodeOf _ = base.val
          rw [reg2CodeOf_mod]; omega
        have hoff : ((offsetOf (0b01111 * 2048 + dst.val * 256 + base.val * 32 + off.toNat) : Nat) : Int) = off := by
          rw [offsetOf_mod, show (0b01111 * 2048 + dst.val * 256 + base.val * 32 + off.toNat) % 32 = off.toNat by omega]
          omega
        simp only [decodeExt, hop, hr1, hr2, hoff]
  | movImm r v =>
      have hr := r.isLt
      have hu : encodeInstructionExt (.movImm r v)
          = (if v < 0 ∨ (0xFF : Int) < v then sentinel
             else (0b00110 <<< 11) ||| (r.val <<< 8) ||| v.toNat) := rfl
      by_cases hv : v < 0 ∨ (0xFF : Int) < v
      · exfalso
        apply h
        rw [hu, if_pos hv]
      · push_neg at hv
        have hv2 : v.toNat < 256 := by omega
        have he : encodeInstructionExt (.movImm r v) = 0b00110 * 2048 + r.val * 256 + v.toNat := by
          rw [hu, if_neg (by push_neg; exact hv), enc3_eq _ _ _ hr hv2]
        rw [he]
        have hop : opcodeOf (0b00110 * 2048 + r.val * 256 + v.toNat) = 0b00110 := by
          rw [opcodeOf_div]; omega
        have hr1 : reg1F (0b00110 * 2048 + r.val * 256 + v.toNat) = r := by
          apply Fin.ext
          show reg1CodeOf _ = r.val
          rw [reg1CodeOf_mod]; omega
        have hval : ((valueOf (0b00110 * 2048 + r.val * 256 + v.toNat) : Nat) : Int) = v := by
          rw [valueOf_mod, show (0b00110 * 2048 + r.val * 256 + v.toNat) % 256 = v.toNat by omega]
          omega
        simp only [decodeExt, hop, hr1, hval]
  | movLoad r a =>
      have hr := r.isLt
      have hu : encodeInstructionExt (.movLoad r a) = encodeRegAddr 0b00111 r a := rfl
      by_cases h1 : a = -1
      · exfalso
        apply h
        rw [hu]
        unfold encodeRegAddr
        rw [if_pos h1]
      · by_cases h2 : a < 0 ∨ (0xFF : Int) < a
        · exfalso
          apply h
          rw [hu]
          unfold encodeRegAddr
          rw [if_neg h1, if_pos h2]
        · push_neg at h2
          have hv2 : a.toNat < 256 := by omega
          have he : encodeInstructionExt (.movLoad r a) = 0b00111 * 2048 + r.val * 256 + a.toNat := by
            rw [hu]
            unfold encodeRegAddr
            rw [if_neg h1, if_neg (by push_neg; exact h2), enc3_eq _ _ _ hr hv2]
          rw [he]
          have hop : opcodeOf (0b00111 * 2048 + r.val * 256 + a.toNat) = 0b00111 := by
            rw [opcodeOf_div]; omega
          have hr1 : reg1F (0b00111 * 2048 + r.val * 256 + a.toNat) = r := by
            apply Fin.ext
            show reg1CodeOf _ = r.val
            rw [reg1CodeOf_mod]; omega
          have hval : ((valueOf (0b00111 * 2048 + r.val * 256 + a.toNat) : Nat) : Int) = a := by
            rw [valueOf_mod, show (0b00111 * 2048 + r.val * 256 + a.toNat) % 256 = a.toNat by omega]
            omega
          simp only [decodeExt, hop, hr1, hval]
  | movStore a r =>
      have hr := r.isLt
      have hu : encodeInstructionExt (.movStore a r) = encodeRegAddr 0b01000 r a := rfl
      by_cases h1 : a = -1
      · exfalso
        apply h
        rw [hu]
        unfold encodeRegAddr
        rw [if_pos h1]
      · by_cases h2 : a < 0 ∨ (0xFF : Int) < a
        · exfalso
          apply h
          rw [hu]
          unfold encodeRegAddr
          rw [if_neg h1, if_pos h2]
        · push_neg at h2
          have hv2 : a.toNat < 256 := by omega
          have he : encodeInstructionExt (.movStore a r) = 0b01000 * 2048 + r.val * 256 + a.toNat := by
            rw [hu]
            unfold encodeRegAddr
            rw [if_neg h1, if_neg (by push_neg; exact h2), enc3_eq _ _ _ hr hv2]
          rw [he]
          have hop : opcodeOf (0b01000 * 2048 + r.val * 256 + a.toNat) = 0b01000 := by
            rw [opcodeOf_div]; omega
          have hr1 : reg1F (0b01000 * 2048 + r.val * 256 + a.toNat) = r := by
            apply Fin.ext
            show reg1CodeOf _ = r.val
            rw [reg1CodeOf_mod]; omega
          have hval : ((valueOf (0b01000 * 2048 + r.val * 256 + a.toNat) : Nat) : Int) = a := by
            rw [valueOf_mod, show (0b01000 * 2048 + r.val * 256 + a.toNat) % 256 = a.toNat by omega]
            omega
          simp only [decodeExt, hop, hr1, hval]
  | movRR d s =>
      have hd := d.isLt
      have hs := s.isLt
      have he : encodeInstructionExt (.movRR d s) = 0b10010 * 2048 + d.val * 256 + s.val * 32 := by
        rw [show encodeInstructionExt (.movRR d s)
            = (0b10010 <<< 11) ||| (d.val <<< 8) ||| (s.val <<< 5) from rfl,
          encRR_eq _ _ _ hd hs]
      rw [he]
      have hop : opcodeOf (0b10010 * 2048 + d.val * 256 + s.val * 32) = 0b10010 := by
        rw [opcodeOf_div]; omega
      have hr1 : reg1F (0b10010 * 2048 + d.val * 256 + s.val * 32) = d := by
        apply Fin.ext
        show reg1CodeOf _ = d.val
        rw [reg1CodeOf_mod]; omega
      have hr2 : reg2F (0b10010 * 2048 + d.val * 256 + s.val * 32) = s := by
        apply Fin.ext
        show reg2CodeOf _ = s.val
        rw [reg2CodeOf_mod]; omega
      simp only [decodeExt, hop, hr1, hr2]

/-- C1 witness: a concrete accepted line (`ADD EDX, #99`) round-trips. -/
theorem extended_encode_decode_roundtrip_witness :
    encodeInstructionExt (ExtInstr.addRI 3 99) ≠ sentinel ∧
      decodeExt (encodeInstructionExt (ExtInstr.addRI 3 99))
        = some (ExtInstr.addRI 3 99) :=
  ⟨by decide, extended_encode_decode_roundtrip (ExtInstr.addRI 3 99) (by decide)⟩


/-! ## Simulator step theorems -/

/-- C4: executing `DIV` (opcode `0b00010`) with a zero divisor faults
(the simulator prints a runtime error and halts) and leaves the entire
state — every register, memory, and flags — unchanged. -/
theorem div_by_zero_faults (w : Nat) (pc inp : Int) (s : ExtState)
    (hop : opcodeOf w = 0b00010) (hz : s.regs (reg2F w) = 0) :
    executeInstructionExt w pc inp s = (s, ExtOutcome.faulted) := by
  simp only [executeInstructionExt, hop, hz]
  norm_num

/-- C4 witness: `DIV EAX, EAX` (word `0x1000`) on the all-zero state. -/
theorem div_by_zero_faults_witness :
    opcodeOf 4096 = 0b00010 ∧ st0.regs (reg2F 4096) = 0 ∧
      executeInstructionExt 4096 0 0 st0 = (st0, ExtOutcome.faulted) :=
  ⟨by decide, rfl, div_by_zero_faults 4096 0 0 st0 (by decide) rfl⟩

/-- C6: `CMP` on two registers (opcode `0b10111`) subtracts without
storing — the state is unchanged except the flags, with
`ZF = (result = 0)` and `SF = (result < 0)` — and execution continues;
consequently equal operands give `ZF` and not `SF`, and a smaller first
operand gives `SF`. -/
theorem cmp_sets_flags (w : Nat) (pc inp : Int) (s : ExtState)
    (hop : opcodeOf w = 0b10111) :
    executeInstructionExt w pc inp s
      = ({ s with
            zf := decide (s.regs (reg1F w) - s.regs (reg2F w) = 0),
            sf := decide (s.regs (reg1F w) - s.regs (reg2F w) < 0) },
          ExtOutcome.next (pc + 1)) ∧
    (s.regs (reg1F w) = s.regs (reg2F w) →
      (executeInstructionExt w pc inp s).1.zf = true ∧
        (executeInstructionExt w pc inp s).1.sf = false) ∧
    (s.regs (reg1F w) < s.regs (reg2F w) →
      (executeInstructionExt w pc inp s).1.sf = true) := by
  have hstep : executeInstructionExt w pc inp s
      = ({ s with
            zf := decide (s.regs (reg1F w) - s.regs (reg2F w) = 0),
            sf := decide (s.regs (reg1F w) - s.regs (reg2F w) < 0) },
          ExtOutcome.next (pc + 1)) := by
    simp only [executeInstructionExt, hop]
    norm_num
  refine ⟨hstep, ?_, ?_⟩
  · intro heq
    rw [hstep]
    simp [heq]
  · intro hlt
    rw [hstep]
    simp
    omega

/-- C6 witness: `CMP EAX, EBX` (word `0xB820`) with `EAX = 3 < 8 = EBX`
sets `SF`; and `CMP EAX, EAX` (word `0xB800`) on the same state sets `ZF`
and clears `SF`. -/
theorem cmp_sets_flags_witness :
    opcodeOf 47136 = 0b10111 ∧
      (executeInstructionExt 47136 0 0 stCmp).1.sf = true ∧
      (executeInstructionExt 47104 0 0 stCmp).1.zf = true ∧
      (executeInstructionExt 47104 0 0 stCmp).1.sf = false :=
  ⟨by decide,
    (cmp_sets_flags 47136 0 0 stCmp (by decide)).2.2 (by decide),
    ((cmp_sets_flags 47104 0 0 stCmp (by decide)).2.1 (by decide)).1,
    ((cmp_sets_flags 47104 0 0 stCmp (by decide)).2.1 (by decide)).2⟩

/-- C7: `CALL` (opcode `0b01101`) at program counter `pc`, in a state
whose decremented stack pointer addresses valid memory, pushes the return
address `pc + 1` (stack pointer decremented, return address stored at the
new top of stack) and jumps to the encoded target; a matching `RET`
(opcode `0b01110`) executed with the stack pointer where `CALL` left it
jumps to `pc + 1` and restores the stack pointer to its pre-`CALL` value. -/
theorem call_ret_roundtrip (w1 w2 : Nat) (pc pc2 inp1 inp2 : Int) (s : ExtState)
    (hop1 : opcodeOf w1 = 0b01101) (hop2 : opcodeOf w2 = 0b01110)
    (hlo : 0 ≤ s.regs 7 - 1) (hhi : s.regs 7 - 1 < 256) :
    (executeInstructionExt w1 pc inp1 s).2
        = ExtOutcome.next ((valueOf w1 : Nat) : Int) ∧
    (executeInstructionExt w1 pc inp1 s).1.regs 7 = s.regs 7 - 1 ∧
    readMem (executeInstructionExt w1 pc inp1 s).1 (s.regs 7 - 1) = pc + 1 ∧
    (executeInstructionExt w2 pc2 inp2 (executeInstructionExt w1 pc inp1 s).1).2
        = ExtOutcome.next (pc + 1) ∧
    (executeInstructionExt w2 pc2 inp2
        (executeInstructionExt w1 pc inp1 s).1).1.regs 7 = s.regs 7 := by
  have hin : (0 : Int) ≤ s.regs 7 - 1 ∧ s.regs 7 - 1 < 256 := ⟨hlo, hhi⟩
  have hcall : executeInstructionExt w1 pc inp1 s
      = (writeMem (setReg s 7 (s.regs 7 - 1)) (s.regs 7 - 1) (pc + 1),
          ExtOutcome.next ((valueOf w1 : Nat) : Int)) := by
    simp only [executeInstructionExt, hop1]
    norm_num [setReg]
  have hmem : writeMem (setReg s 7 (s.regs 7 - 1)) (s.regs 7 - 1) (pc + 1)
      = { s with
            regs := fun i => if i = 7 then s.regs 7 - 1 else s.regs i,
            mem := fun x => if x = s.regs 7 - 1 then pc + 1 else s.mem x } := by
    simp [writeMem, hin, setReg]
  rw [hcall, hmem]
  refine ⟨rfl, by simp, ?_, ?_, ?_⟩
  · simp [readMem, hin]
  · simp only [executeInstructionExt, hop2]
    norm_num [readMem, hin]
  · simp only [executeInstructionExt, hop2]
    norm_num [setReg]

/-- C7 witness: `CALL 5` (word `0x6805`) from `ESP = 10` at `pc = 0`, then
`RET` (word `0x7000`): jumps to 5 with `pc + 1 = 1` pushed at address 9,
and `RET` returns to 1 with `ESP` back at 10. -/
theorem call_ret_roundtrip_witness :
    opcodeOf 26629 = 0b01101 ∧ (0 : Int) ≤ stEsp10.regs 7 - 1 ∧
      ((executeInstructionExt 26629 0 0 stEsp10).2
          = ExtOutcome.next ((valueOf 26629 : Nat) : Int) ∧
        (executeInstructionExt 26629 0 0 stEsp10).1.regs 7 = stEsp10.regs 7 - 1 ∧
        readMem (executeInstructionExt 26629 0 0 stEsp10).1 (stEsp10.regs 7 - 1)
          = 0 + 1 ∧
        (executeInstructionExt 28672 5 0 (executeInstructionExt 26629 0 0 stEsp10).1).2
          = ExtOutcome.next (0 + 1) ∧
        (executeInstructionExt 28672 5 0
            (executeInstructionExt 26629 0 0 stEsp10).1).1.regs 7
          = stEsp10.regs 7) :=
  ⟨by decide, by decide,
    call_ret_roundtrip 26629 28672 0 5 0 0 stEsp10 (by decide) (by decide)
      (by decide) (by decide)⟩

/-- C8 (amended): in any state whose decremented stack pointer addresses
valid memory (`0 ≤ ESP - 1 < 256`), `PUSH r` followed by `POP r` leaves
`r` with its original value, restores the stack pointer, and both steps
continue normally.  (Without that condition the claim fails: see the
counterexample at `ESP = 0`.) -/
theorem push_pop_roundtrip (w1 w2 : Nat) (r : Fin 8) (pc pc2 inp1 inp2 : Int)
    (s : ExtState)
    (hop1 : opcodeOf w1 = 0b01011) (hop2 : opcodeOf w2 = 0b01100)
    (hr1 : reg1F w1 = r) (hr2 : reg1F w2 = r)
    (hlo : 0 ≤ s.regs 7 - 1) (hhi : s.regs 7 - 1 < 256) :
    (executeInstructionExt w2 pc2 inp2
        (executeInstructionExt w1 pc inp1 s).1).1.regs r = s.regs r ∧
    (executeInstructionExt w2 pc2 inp2
        (executeInstructionExt w1 pc inp1 s).1).1.regs 7 = s.regs 7 ∧
    (executeInstructionExt w1 pc inp1 s).2 = ExtOutcome.next (pc + 1) ∧
    (executeInstructionExt w2 pc2 inp2
        (executeInstructionExt w1 pc inp1 s).1).2 = ExtOutcome.next (pc2 + 1) := by
  have hin : (0 : Int) ≤ s.regs 7 - 1 ∧ s.regs 7 - 1 < 256 := ⟨hlo, hhi⟩
  have hpush : executeInstructionExt w1 pc inp1 s
      = (writeMem (setReg s 7 (s.regs 7 - 1)) (s.regs 7 - 1)
            ((setReg s 7 (s.regs 7 - 1)).regs r),
          ExtOutcome.next (pc + 1)) := by
    simp only [executeInstructionExt, hop1, hr1]
    norm_num [setReg]
  have hmem : writeMem (setReg s 7 (s.regs 7 - 1)) (s.regs 7 - 1)
        ((setReg s 7 (s.regs 7 - 1)).regs r)
      = { s with
            regs := fun i => if i = 7 then s.regs 7 - 1 else s.regs i,
            mem := fun x => if x = s.regs 7 - 1
              then (if r = 7 then s.regs 7 - 1 else s.regs r) else s.mem x } := by
    by_cases hr7 : r = 7
    · subst hr7
      simp [writeMem, hin, setReg]
    · simp [writeMem, hin, setReg, hr7]
  rw [hpush, hmem]
  have hpop : ∀ t : ExtState, executeInstructionExt w2 pc2 inp2 t
      = (setReg (setReg t r (readMem t (t.regs 7))) 7
            ((setReg t r (readMem t (t.regs 7))).regs 7 + 1),
          ExtOutcome.next (pc2 + 1)) := by
    intro t
    simp only [executeInstructionExt, hop2, hr2]
    norm_num
  rw [hpop]
  by_cases hr7 : r = 7
  · subst hr7
    refine ⟨?_, ?_, rfl, rfl⟩ <;>
      simp [setReg, readMem, hin]
  · have h7r : (7 : Fin 8) ≠ r := fun hh => hr7 hh.symm
    refine ⟨?_, ?_, rfl, rfl⟩ <;>
      simp [setReg, readMem, hin, hr7, h7r]

/-- C8 witness: `PUSH EAX` (word `0x5800`) then `POP EAX` (word `0x6000`)
from `ESP = 10`, `EAX = 0`: `EAX` and `ESP` are both restored. -/
theorem push_pop_roundtrip_witness :
    opcodeOf 22528 = 0b01011 ∧ (0 : Int) ≤ stEsp10.regs 7 - 1 ∧
      ((executeInstructionExt 24576 1 0
          (executeInstructionExt 22528 0 0 stEsp10).1).1.regs 0 = stEsp10.regs 0 ∧
        (executeInstructionExt 24576 1 0
          (executeInstructionExt 22528 0 0 stEsp10).1).1.regs 7 = stEsp10.regs 7 ∧
        (executeInstructionExt 22528 0 0 stEsp10).2 = ExtOutcome.next (0 + 1) ∧
        (executeInstructionExt 24576 1 0
          (executeInstructionExt 22528 0 0 stEsp10).1).2 = ExtOutcome.next (1 + 1)) :=
  ⟨by decide, by decide,
    push_pop_roundtrip 22528 24576 0 0 1 0 0 stEsp10 (by decide) (by decide)
      (by decide) (by decide) (by decide) (by decide)⟩

/-- C8 counterexample: the claim as stated quantifies over every machine
state; with `ESP = 0` and `EAX = 5`, `PUSH EAX` then `POP EAX` leaves
`EAX = 0 ≠ 5` (the pushed value was dropped by `write_memory` and `POP`
read 0 back), so the round-trip fails. -/
theorem push_pop_clobbers_at_esp_zero :
    (executeInstructionExt 24576 1 0
        (executeInstructionExt 22528 0 0 stEspZero).1).1.regs 0
      ≠ stEspZero.regs 0 := by
  decide

/-- C10: with the stack pointer at 0 or below, `PUSH` (opcode `0b01011`)
and `CALL` (opcode `0b01101`) decrement the stack pointer and continue
execution normally (no fault), while the store is dropped and memory —
and every other register — is unchanged; iterating `PUSH` drives the
stack pointer down without bound, so stack overflow is never detected. -/
theorem push_call_below_stack_bottom (w1 w2 : Nat) (pc inp : Int) (s : ExtState)
    (hop1 : opcodeOf w1 = 0b01011) (hop2 : opcodeOf w2 = 0b01101)
    (hsp : s.regs 7 ≤ 0) :
    executeInstructionExt w1 pc inp s
      = (setReg s 7 (s.regs 7 - 1), ExtOutcome.next (pc + 1)) ∧
    executeInstructionExt w2 pc inp s
      = (setReg s 7 (s.regs 7 - 1),
          ExtOutcome.next ((valueOf w2 : Nat) : Int)) ∧
    (∀ n : Nat, (pushIter w1 n s).regs 7 = s.regs 7 - n ∧
      (pushIter w1 n s).mem = s.mem) := by
  have hpush : ∀ (pc' inp' : Int) (t : ExtState), t.regs 7 ≤ 0 →
      executeInstructionExt w1 pc' inp' t
        = (setReg t 7 (t.regs 7 - 1), ExtOutcome.next (pc' + 1)) := by
    intro pc' inp' t ht
    have hout : ¬((0 : Int) ≤ t.regs 7 - 1 ∧ t.regs 7 - 1 < 256) := by omega
    simp only [executeInstructionExt, hop1]
    norm_num [setReg, writeMem]
    intro hc
    omega
  have hgen : ∀ (n : Nat) (t : ExtState), t.regs 7 ≤ 0 →
      (pushIter w1 n t).regs 7 = t.regs 7 - n ∧ (pushIter w1 n t).mem = t.mem := by
    intro n
    induction n with
    | zero => intro t ht; simp [pushIter]
    | succ n ih =>
        intro t ht
        rw [pushIter, hpush 0 0 t ht]
        have hstep := ih (setReg t 7 (t.regs 7 - 1)) (by simp [setReg]; omega)
        rw [hstep.1, hstep.2]
        refine ⟨?_, by simp [setReg]⟩
        simp [setReg]
        ring
  have hcall : executeInstructionExt w2 pc inp s
      = (setReg s 7 (s.regs 7 - 1),
          ExtOutcome.next ((valueOf w2 : Nat) : Int)) := by
    have hout : ¬((0 : Int) ≤ s.regs 7 - 1 ∧ s.regs 7 - 1 < 256) := by omega
    simp only [executeInstructionExt, hop2]
    norm_num [setReg, writeMem]
    intro hc
    omega
  exact ⟨hpush pc inp s hsp, hcall, fun n => hgen n s hsp⟩

/-- C10 witness: from `ESP = 0`, `PUSH EAX` and `CALL 0` continue with the
stack pointer decremented and memory untouched; five pushes leave
`ESP = -5`. -/
theorem push_call_below_stack_bottom_witness :
    opcodeOf 22528 = 0b01011 ∧ stEspZero.regs 7 ≤ 0 ∧
      (executeInstructionExt 22528 0 0 stEspZero
          = (setReg stEspZero 7 (stEspZero.regs 7 - 1), ExtOutcome.next (0 + 1)) ∧
        executeInstructionExt 26624 0 0 stEspZero
          = (setReg stEspZero 7 (stEspZero.regs 7 - 1),
              ExtOutcome.next ((valueOf 26624 : Nat) : Int)) ∧
        ((pushIter 22528 5 stEspZero).regs 7 = stEspZero.regs 7 - (5 : Nat) ∧
          (pushIter 22528 5 stEspZero).mem = stEspZero.mem)) :=
  ⟨by decide, by decide,
    (push_call_below_stack_bottom 22528 26624 0 0 stEspZero
        (by decide) (by decide) (by decide)).1,
    (push_call_below_stack_bottom 22528 26624 0 0 stEspZero
        (by decide) (by decide) (by decide)).2.1,
    (push_call_below_stack_bottom 22528 26624 0 0 stEspZero
        (by decide) (by decide) (by decide)).2.2 5⟩

/-! ## Symbol table theorems -/

/-- C9: capacity handling of `build_symbol_table`.  The extended profile
records labels silently while capacity remains and warns (ignoring the
label) only on overflow.  The simple profile's misplaced `fprintf` makes
it warn on every successful insertion — even the very first label — and
stay silent when a label is dropped at capacity. -/
theorem symtab_capacity_warning_behavior :
    buildSymtabSimple [SrcLine.labeled "start" "HLT"] = ([("start", 0)], ["start"]) ∧
    (buildSymtabSimple prog65).1.length = 64 ∧
    (buildSymtabSimple prog65).2.length = 64 ∧
    buildSymtabExt [SrcLine.labeled "start" "HLT"] = ([("start", 0)], []) ∧
    (buildSymtabExt prog65).1.length = 64 ∧
    (buildSymtabExt prog65).2 = ["L"] := by
  decide

/-- C5: each immediate/address field accepts its maximum value and
rejects one more with the encode-error sentinel: 511/512 for the 9-bit
simple-profile fields, 255/256 for the 8-bit extended-profile fields, and
31/32 for the 5-bit offset field — except the single corner
`MOV [ESP+31], ESP`, where the encoding of the in-range maximum offset
itself equals the sentinel `0xFFFF` (the final iff), so that one maximum
is rejected as an encode error rather than accepted. -/
theorem field_boundary_checks :
    (∀ r : Fin 3, encodeInstructionSimple (SimpleInstr.set r 511) ≠ sentinel ∧
        encodeInstructionSimple (SimpleInstr.set r 512) = sentinel) ∧
    (∀ r : Fin 3, encodeInstructionSimple (SimpleInstr.lda r 511) ≠ sentinel ∧
        encodeInstructionSimple (SimpleInstr.lda r 512) = sentinel) ∧
    (encodeInstructionSimple (SimpleInstr.jmp 511) ≠ sentinel ∧
      encodeInstructionSimple (SimpleInstr.jmp 512) = sentinel) ∧
    (∀ r : Fin 8, encodeInstructionExt (ExtInstr.addRI r 255) ≠ sentinel ∧
        encodeInstructionExt (ExtInstr.addRI r 256) = sentinel) ∧
    (∀ r : Fin 8, encodeInstructionExt (ExtInstr.movImm r 255) ≠ sentinel ∧
        encodeInstructionExt (ExtInstr.movImm r 256) = sentinel) ∧
    (encodeInstructionExt (ExtInstr.call 255) ≠ sentinel ∧
      encodeInstructionExt (ExtInstr.call 256) = sentinel) ∧
    (∀ r b : Fin 8, encodeInstructionExt (ExtInstr.movLoadBase r b 31) ≠ sentinel ∧
        encodeInstructionExt (ExtInstr.movLoadBase r b 32) = sentinel) ∧
    (∀ r b : Fin 8, encodeInstructionExt (ExtInstr.movStoreBase r b 32) = sentinel) ∧
    (∀ r b : Fin 8,
      (encodeInstructionExt (ExtInstr.movStoreBase r b 31) = sentinel ↔
        r.val = 7 ∧ b.val = 7)) := by
  decide

/-- C3: assembly is all-or-nothing — `assembleExt` returns `none` (the C
`-1`, after which no binary is written) exactly when some non-empty line
encodes to the sentinel — but the sentinel is not distinct from every
valid encoding: the in-range instruction `MOV [ESP+31], ESP` encodes to
`0xFFFF` itself, so that successfully encoded instruction is mistaken for
the encode-error and aborts assembly. -/
theorem encode_error_aborts_assembly :
    (∀ ls : List ExtLine, assembleExt ls = none ↔
        ∃ l ∈ ls, l ≠ ExtLine.empty ∧ encodeLineExt l = sentinel) ∧
    encodeInstructionExt (ExtInstr.movStoreBase 7 7 31) = sentinel ∧
    assembleExt [ExtLine.instr (ExtInstr.movStoreBase 7 7 31)] = none := by
  refine ⟨?_, by decide, by decide⟩
  intro ls
  induction ls with
  | nil => simp [assembleExt]
  | cons l rest ih =>
      cases l with
      | empty =>
          rw [show assembleExt (ExtLine.empty :: rest) = assembleExt rest from rfl, ih]
          constructor
          · rintro ⟨l, hmem, hne, hs⟩
            exact ⟨l, List.mem_cons_of_mem _ hmem, hne, hs⟩
          · rintro ⟨l, hmem, hne, hs⟩
            rcases List.mem_cons.mp hmem with hl | hl
            · subst hl
              exact absurd rfl hne
            · exact ⟨l, hl, hne, hs⟩
      | bad =>
          constructor
          · intro _
            exact ⟨ExtLine.bad, List.mem_cons_self _ _, by simp, rfl⟩
          · intro _
            simp [assembleExt, encodeLineExt]
      | instr i =>
          by_cases hw : encodeInstructionExt i = sentinel
          · constructor
            · intro _
              refine ⟨ExtLine.instr i, List.mem_cons_self _ _, by simp, ?_⟩
              simpa [encodeLineExt] using hw
            · intro _
              simp [assembleExt, encodeLineExt, hw]
          · have hL : assembleExt (ExtLine.instr i :: rest) = none ↔
                assembleExt rest = none := by
              rw [show assembleExt (ExtLine.instr i :: rest)
                  = (if encodeLineExt (ExtLine.instr i) = sentinel then none
                     else match assembleExt rest with
                          | none => none
                          | some ws => some (encodeLineExt (ExtLine.instr i) :: ws))
                  from rfl]
              rw [if_neg (by simpa [encodeLineExt] using hw)]
              rcases hrest : assembleExt rest with _ | ws <;> simp
            rw [hL, ih]
            constructor
            · rintro ⟨l, hmem, hne, hs⟩
              exact ⟨l, List.mem_cons_of_mem _ hmem, hne, hs⟩
            · rintro ⟨l, hmem, hne, hs⟩
              rcases List.mem_cons.mp hmem with hl | hl
              · subst hl
                exact absurd hs (by simpa [encodeLineExt] using hw)
              · exact ⟨l, hl, hne, hs⟩

/-! ## Label address correctness (pass 1, extended profile) -/

theorem instructionsBefore_cons (l : SrcLine) (rest : List SrcLine) (i : Nat) :
    instructionsBefore (l :: rest) (i + 1)
      = (if instrTextOf l = "" then 0 else 1) + instructionsBefore rest i := by
  unfold instructionsBefore
  rw [List.take_succ_cons, List.filter_cons]
  by_cases h : instrTextOf l = ""
  · simp [h]
  · simp [h]
    omega

theorem buildSymtabExtGo_take (lines : List SrcLine) :
    ∀ (addr : Nat) (tab : List (String × Nat)) (warns : List String),
      (buildSymtabExtGo lines addr tab warns).1
        = tab ++ (symtabSpecFrom lines addr).take (64 - tab.length) := by
  induction lines with
  | nil =>
      intro addr tab warns
      simp [buildSymtabExtGo, symtabSpecFrom]
  | cons l rest ih =>
      intro addr tab warns
      cases l with
      | plain t =>
          rw [show buildSymtabExtGo (SrcLine.plain t :: rest) addr tab warns
              = buildSymtabExtGo rest (if t = "" then addr else addr + 1) tab warns
              from rfl,
            show symtabSpecFrom (SrcLine.plain t :: rest) addr
              = symtabSpecFrom rest (if t = "" then addr else addr + 1) from rfl]
          exact ih _ tab warns
      | labeled n t =>
          rw [show buildSymtabExtGo (SrcLine.labeled n t :: rest) addr tab warns
              = (if tab.length < 64 then
                  buildSymtabExtGo rest (if t = "" then addr else addr + 1)
                    (tab ++ [(n, addr)]) warns
                 else
                  buildSymtabExtGo rest (if t = "" then addr else addr + 1)
                    tab (warns ++ [n]))
              from rfl,
            show symtabSpecFrom (SrcLine.labeled n t :: rest) addr
              = (n, addr) :: symtabSpecFrom rest (if t = "" then addr else addr + 1)
              from rfl]
          by_cases htab : tab.length < 64
          · rw [if_pos htab, ih _ _ warns, List.length_append]
            rw [show 64 - (tab.length + List.length [(n, addr)]) = 63 - tab.length
                by simp]
            rw [show 64 - tab.length = (63 - tab.length) + 1 by omega,
              List.take_succ_cons, List.append_assoc]
            rfl
          · rw [if_neg htab, ih _ tab _,
              show 64 - tab.length = 0 by omega]
            simp

theorem symtabSpecFrom_eq (lines : List SrcLine) :
    ∀ addr : Nat, symtabSpecFrom lines addr
      = (List.range lines.length).filterMap fun i =>
          match lines.get? i with
          | some (SrcLine.labeled n _) => some (n, addr + instructionsBefore lines i)
          | _ => none := by
  induction lines with
  | nil =>
      intro addr
      simp [symtabSpecFrom]
  | cons l rest ih =>
      intro addr
      have htail : ∀ addr' : Nat,
          (if instrTextOf l = "" then addr else addr + 1) = addr' →
          ((fun i => match (l :: rest).get? i with
              | some (SrcLine.labeled n _) =>
                  some (n, addr + instructionsBefore (l :: rest) i)
              | _ => none) ∘ Nat.succ)
            = fun i => match rest.get? i with
                | some (SrcLine.labeled n _) =>
                    some (n, addr' + instructionsBefore rest i)
                | _ => none := by
        intro addr' haddr
        funext i
        simp only [Function.comp_apply, List.get?_cons_succ, instructionsBefore_cons]
        rcases hget : rest.get? i with _ | l2
        · rfl
        · cases l2 with
          | plain t2 => rfl
          | labeled n2 t2 =>
              by_cases h : instrTextOf l = ""
              · simp only [h, if_pos rfl] at haddr ⊢
                rw [← haddr]
                norm_num
              · rw [if_neg h] at haddr
                simp only [if_neg h]
                rw [← haddr]
                norm_num
                ring
      cases l with
      | plain t =>
          rw [show symtabSpecFrom (SrcLine.plain t :: rest) addr
              = symtabSpecFrom rest (if t = "" then addr else addr + 1) from rfl, ih _,
            List.length_cons, List.range_succ_eq_map, List.filterMap_cons,
            List.filterMap_map, htail (if t = "" then addr else addr + 1) rfl]
          rfl
      | labeled n t =>
          rw [show symtabSpecFrom (SrcLine.labeled n t :: rest) addr
              = (n, addr) :: symtabSpecFrom rest (if t = "" then addr else addr + 1)
              from rfl, ih _,
            List.length_cons, List.range_succ_eq_map, List.filterMap_cons,
            List.filterMap_map, htail (if t = "" then addr else addr + 1) rfl]
          rfl

/-- C2 (amended): in the extended-profile assembler, the pass-1 symbol
table is precisely the label→address map described by the spec — each
labelled line maps to the number of instruction-emitting lines before it
(a label-only line does not advance the counter) — truncated to the
64-label capacity; all references, forward or backward, resolve through
this single table. -/
theorem ext_symtab_addresses (lines : List SrcLine) :
    (buildSymtabExt lines).1 = (symtabSpec lines).take 64 := by
  rw [buildSymtabExt, buildSymtabExtGo_take, symtabSpecFrom_eq]
  simp only [List.nil_append, List.length_nil, Nat.sub_zero, Nat.zero_add]
  rfl

/-- C2 counterexample: in the simple-profile assembler the recorded
address is the source line index, so after the label-only line `L:` the
label `M` (line 1) resolves to address 1 even though zero instructions
precede it — the label-only line advanced the address counter, contrary
to the claim. -/
theorem simple_symtab_label_only_advances :
    getAddressForLabel (buildSymtabSimple demoProg).1 "M" = 1 ∧
    instructionsBefore demoProg 1 = 0 ∧
    getAddressForLabel (buildSymtabSimple demoProg).1 "M"
      ≠ (instructionsBefore demoProg 1 : Int) := by
  decide

end CPUsim
